import Mathlib

/-!
Shallow embedding of the index-construction pipeline of the web-index
repository: the regex tokenizers, the non-positional and the positional
index builder, the statistics aggregator and the stemmed-index derivation
(src/index/non_pos_index.py, src/index/pos_index.py, src/index/abs_index.py).

Python dictionaries are modelled as association lists kept in insertion
order; a lookup of a missing key in a defaultdict yields the default value
(an empty list, an empty inner dict, or zero).  Python exceptions are
modelled with Except: a KeyError on a missing document field is the
MissingFieldError of the spec, and the error of dividing by zero is
ZeroDivisionError.
-/

/-- A document: a mapping from field name to text (a Python dict), kept as an
association list in insertion order.  Python dicts never hold a key twice;
where that matters a theorem assumes the key list is Nodup. -/
abbrev Doc := List (String × String)

/-- Field access on a document; none models Python raising KeyError. -/
def dGet : Doc → String → Option String
  | [], _ => none
  | (k, v) :: rest, f => if k = f then some v else dGet rest f

/-- The errors the embedded pipeline can signal: KeyError on a missing
document field (the MissingFieldError of the spec) and ZeroDivisionError. -/
inductive PyErr where
  | missingFieldError
  | zeroDivisionError
  deriving DecidableEq

/-- Decidable equality of Except outcomes, so the embedding can be evaluated
on concrete inputs. -/
instance {ε α : Type} [DecidableEq ε] [DecidableEq α] : DecidableEq (Except ε α) := fun x y =>
  match x, y with
  | .error a, .error b =>
    if h : a = b then isTrue (congrArg Except.error h)
    else isFalse (fun h2 => h (Except.error.inj h2))
  | .error _, .ok _ => isFalse (fun h2 => Except.noConfusion h2)
  | .ok _, .error _ => isFalse (fun h2 => Except.noConfusion h2)
  | .ok a, .ok b =>
    if h : a = b then isTrue (congrArg Except.ok h)
    else isFalse (fun h2 => h (Except.ok.inj h2))

/-- A word character of the builder regex (backslash w).  Python also counts
characters beyond ASCII as word characters; none of the properties proved
below depends on the exact character class. -/
def isWordChar (c : Char) : Bool := c.isAlphanum || c = '_'

/-- Splits a character list into the maximal runs of characters satisfying p,
dropping separators: the common shape of re.findall of a one-class-plus
pattern and of str.split with no argument.  The second argument holds the
current run, reversed. -/
def splitRuns (p : Char → Bool) : List Char → List Char → List (List Char)
  | [], cur => if cur = [] then [] else [cur.reverse]
  | c :: cs, cur =>
    if p c then splitRuns p cs (c :: cur)
    else if cur = [] then splitRuns p cs []
    else cur.reverse :: splitRuns p cs []

/-- The tokenize method shared by NonPositionalIndex and PositionalIndex:
re.findall of word-character runs over the lowercased text. -/
def tokenize (text : String) : List String :=
  (splitRuns isWordChar (text.data.map Char.toLower) []).map List.asString

/-- One character matched by the first regex of the crawling tokenizer of
AbstractIndex.tokenize: case-insensitively, a hyphen, an apostrophe, a digit,
a letter a to z, or a Latin-1 character from the capital A-grave to the small
y-diaeresis, except the six characters excluded by the negative lookahead
(multiplication sign, capital and small thorn, sharp s, division sign, small
and, case-insensitively, capital o-slash). -/
def crawlKeptChar (c : Char) : Bool :=
  if c = '×' || c = 'Þ' || c = 'ß' || c = 'ẞ' || c = '÷' || c = 'þ' || c = 'ø' || c = 'Ø'
  then false
  else
    c = '-' || c = '\x27' || c.isDigit ||
      ('a' ≤ c.toLower && c.toLower ≤ 'z') ||
      ('À' ≤ c && c ≤ 'ÿ') || c = 'Ÿ'

/-- Step 1 of AbstractIndex.tokenize.  The pattern is anchored on both sides,
so it matches exactly when the whole text is a nonempty run of kept
characters, and re.sub then replaces the whole text by the empty string;
otherwise nothing matches and the text is unchanged.  (The dollar anchor of
Python also matches before one trailing newline; that corner is irrelevant to
every claim and is not modelled.) -/
def crawlStep1 (text : String) : String :=
  if !text.isEmpty && text.data.all crawlKeptChar then "" else text

/-- The ASCII punctuation of string.punctuation in Python. -/
def pyPunctuation : String := "!\"#$%&\x27()*+,-./:;<=>?@[\\]^_`\x7b|\x7d~"

/-- Membership in string.punctuation. -/
def isPyPunct (c : Char) : Bool := pyPunctuation.contains c

/-- AbstractIndex.tokenize with the default options (no stopword removal, no
stemming), as the pure token sequence it returns: step 1 above; step 2
replaces the curly apostrophe and the horizontal ellipsis by a space; step 3
replaces every ASCII punctuation character and every digit by a space,
lowercases, strips with an empty strip set (a no-op) and splits on
whitespace. -/
def crawlTokenize (text : String) : List String :=
  let t1 := crawlStep1 text
  let t2 := t1.data.map fun c => if c = '’' || c = '…' then ' ' else c
  let t3 := (t2.map fun c => if isPyPunct c || c.isDigit then ' ' else c).map Char.toLower
  (splitRuns (fun c => !c.isWhitespace) t3 []).map List.asString

/-- The statistics dictionary built by calculate_statistics.  The average is
carried as an exact rational in place of the Python float. -/
structure Statistics where
  num_documents : Nat
  total_tokens : Nat
  tokens_per_field : List (String × Nat)
  avg_tokens_per_doc : ℚ
  deriving DecidableEq

/-- The state of a NonPositionalIndex object: the index dict (a defaultdict
from token to postings list) and the statistics (none until computed). -/
structure NonPositionalIndex where
  index : List (String × List Nat)
  statistics : Option Statistics
  deriving DecidableEq

/-- The state of a PositionalIndex object: the index dict from token to an
inner dict from document id to position list, and the statistics. -/
structure PositionalIndex where
  index : List (String × List (Nat × List Nat))
  statistics : Option Statistics
  deriving DecidableEq

/-- The state a freshly constructed NonPositionalIndex holds. -/
def NonPositionalIndex.empty : NonPositionalIndex := ⟨[], none⟩

/-- The state a freshly constructed PositionalIndex holds. -/
def PositionalIndex.empty : PositionalIndex := ⟨[], none⟩

/-- Appending a document id to the postings list of a token in a defaultdict
of lists: the value of an existing key grows at the end, a new key enters at
the end of the insertion order. -/
def dictAppend : List (String × List Nat) → String → Nat → List (String × List Nat)
  | [], t, i => [(t, [i])]
  | (k, v) :: rest, t, i =>
    if k = t then (k, v ++ [i]) :: rest else (k, v) :: dictAppend rest t i

/-- Reading a postings list from the index dict; a missing token yields the
defaultdict default, the empty list. -/
def npLookup : List (String × List Nat) → String → List Nat
  | [], _ => []
  | (k, v) :: rest, t => if k = t then v else npLookup rest t

/-- Reading an entry of the index dict without a default. -/
def npLookupOpt : List (String × List Nat) → String → Option (List Nat)
  | [], _ => none
  | (k, v) :: rest, t => if k = t then some v else npLookupOpt rest t

/-- The loop of NonPositionalIndex.build_index over the enumerated documents:
for every document, tokenize its title and append the document id to the
postings list of every token occurrence. -/
def NPbuildAux : List (String × List Nat) → List (Nat × Doc) →
    Except PyErr (List (String × List Nat))
  | idx, [] => .ok idx
  | idx, (i, d) :: rest =>
    match dGet d "title" with
    | none => .error .missingFieldError
    | some v => NPbuildAux ((tokenize v).foldl (fun a tk => dictAppend a tk i) idx) rest

/-- NonPositionalIndex.build_index: walks the documents in source order,
enumerated from zero, mutating the index field of the object. -/
def NonPositionalIndex.build_index (self : NonPositionalIndex) (documents : List Doc) :
    Except PyErr NonPositionalIndex :=
  match NPbuildAux self.index documents.enum with
  | .error e => .error e
  | .ok idx => .ok ⟨idx, self.statistics⟩

/-- Adding to a counter in a defaultdict of ints. -/
def tpfAdd : List (String × Nat) → String → Nat → List (String × Nat)
  | [], f, n => [(f, n)]
  | (k, v) :: rest, f, n =>
    if k = f then (k, v + n) :: rest else (k, v) :: tpfAdd rest f n

/-- Reading a counter from a defaultdict of ints; a missing key yields 0. -/
def tpfLookup : List (String × Nat) → String → Nat
  | [], _ => 0
  | (k, v) :: rest, f => if k = f then v else tpfLookup rest f

/-- The inner loop of calculate_statistics over the fields of one document:
every field other than url adds the token count of its value to the per-field
counters. -/
def fieldLoop (tpf : List (String × Nat)) (d : Doc) : List (String × Nat) :=
  d.foldl (fun acc p => if p.1 ≠ "url" then tpfAdd acc p.1 (tokenize p.2).length else acc) tpf

/-- The document loop of calculate_statistics, accumulating the total title
token count and the per-field counters. -/
def calcLoop : Nat → List (String × Nat) → List Doc →
    Except PyErr (Nat × List (String × Nat))
  | total, tpf, [] => .ok (total, tpf)
  | total, tpf, d :: rest =>
    match dGet d "title" with
    | none => .error .missingFieldError
    | some v => calcLoop (total + (tokenize v).length) (fieldLoop tpf d) rest

/-- Python division: raises ZeroDivisionError on a zero divisor, otherwise
exact (rational in this model). -/
def pyDiv (a b : ℚ) : Except PyErr ℚ :=
  if b = 0 then .error .zeroDivisionError else .ok (a / b)

/-- NonPositionalIndex.calculate_statistics: the document loop, then the
average as an unguarded division by the document count, then the statistics
dict is stored on the object. -/
def NonPositionalIndex.calculate_statistics (self : NonPositionalIndex)
    (documents : List Doc) : Except PyErr NonPositionalIndex :=
  match calcLoop 0 [] documents with
  | .error e => .error e
  | .ok (total, tpf) =>
    match pyDiv (total : ℚ) (documents.length : ℚ) with
    | .error e => .error e
    | .ok avg => .ok ⟨self.index, some ⟨documents.length, total, tpf, avg⟩⟩

/-- Appending a position to the list of one document id inside the inner dict
of one token of the positional index. -/
def innerAppend : List (Nat × List Nat) → Nat → Nat → List (Nat × List Nat)
  | [], i, pos => [(i, [pos])]
  | (k, v) :: rest, i, pos =>
    if k = i then (k, v ++ [pos]) :: rest else (k, v) :: innerAppend rest i pos

/-- One iteration of the positional build loop: ensure the token entry and
the document entry exist, then append the position. -/
def posDictAppend : List (String × List (Nat × List Nat)) → String → Nat → Nat →
    List (String × List (Nat × List Nat))
  | [], t, i, pos => [(t, [(i, [pos])])]
  | (k, v) :: rest, t, i, pos =>
    if k = t then (k, innerAppend v i pos) :: rest else (k, v) :: posDictAppend rest t i pos

/-- Reading the position list of one document id inside an inner dict. -/
def innerLookup : List (Nat × List Nat) → Nat → List Nat
  | [], _ => []
  | (k, v) :: rest, i => if k = i then v else innerLookup rest i

/-- Reading the position list of a token and a document id from the
positional index; anything missing yields the empty list. -/
def posLookup : List (String × List (Nat × List Nat)) → String → Nat → List Nat
  | [], _, _ => []
  | (k, v) :: rest, t, i => if k = t then innerLookup v i else posLookup rest t i

/-- The loop of PositionalIndex.build_index over the enumerated documents:
for every document, tokenize its title and walk the enumerated token list,
appending each position under its token and the document id. -/
def PosBuildAux : List (String × List (Nat × List Nat)) → List (Nat × Doc) →
    Except PyErr (List (String × List (Nat × List Nat)))
  | idx, [] => .ok idx
  | idx, (i, d) :: rest =>
    match dGet d "title" with
    | none => .error .missingFieldError
    | some v =>
      PosBuildAux ((tokenize v).enum.foldl (fun a p => posDictAppend a p.2 i p.1) idx) rest

/-- PositionalIndex.build_index: walks the documents in source order,
enumerated from zero, mutating the index field of the object. -/
def PositionalIndex.build_index (self : PositionalIndex) (documents : List Doc) :
    Except PyErr PositionalIndex :=
  match PosBuildAux self.index documents.enum with
  | .error e => .error e
  | .ok idx => .ok ⟨idx, self.statistics⟩

/-- PositionalIndex.calculate_statistics: textually the same body as the
non-positional one. -/
def PositionalIndex.calculate_statistics (self : PositionalIndex)
    (documents : List Doc) : Except PyErr PositionalIndex :=
  match calcLoop 0 [] documents with
  | .error e => .error e
  | .ok (total, tpf) =>
    match pyDiv (total : ℚ) (documents.length : ℚ) with
    | .error e => .error e
    | .ok avg => .ok ⟨self.index, some ⟨documents.length, total, tpf, avg⟩⟩

/-- Plain dict assignment: the value of an existing key is overwritten in
place, a new key enters at the end of the insertion order. -/
def dictSet : List (String × List Nat) → String → List Nat → List (String × List Nat)
  | [], k, v => [(k, v)]
  | (k2, v2) :: rest, k, v =>
    if k2 = k then (k2, v) :: rest else (k2, v2) :: dictSet rest k v

/-- NonPositionalIndex.stem_index, parameterised by the external Snowball
French stemmer: for every entry of the index, in insertion order, assign the
postings list to the stemmed key (assignment, not append).  The write of the
result to a JSON file is input-output glue and is not modelled. -/
def stem_index (stem : String → String) (index : List (String × List Nat)) :
    List (String × List Nat) :=
  index.foldl (fun acc p => dictSet acc (stem p.1) p.2) []

/-- Spec side, for the refinement claim C1: the document ids of the
occurrences of token s, walking the documents in source order numbered from
n and every title token sequence left to right, one id per occurrence. -/
def specPostingsFrom (n : Nat) (docs : List Doc) (s : String) : List Nat :=
  (List.enumFrom n docs).flatMap fun p =>
    ((tokenize ((dGet p.2 "title").getD "")).filter (fun tk => tk = s)).map fun _ => p.1

/-- Spec side, for C1: the same, with the documents numbered from zero. -/
def specPostings (docs : List Doc) (s : String) : List Nat := specPostingsFrom 0 docs s

/-- Spec side, for C2: the zero-based positions at which token t occurs in a
token sequence, in scan order. -/
def specPositions (t : String) (toks : List String) : List Nat :=
  (toks.enum.filter (fun p => p.2 = t)).map Prod.fst

/-- Helper for the positional characterisation: the positions contributed to
token t and document id i by a list of enumerated documents. -/
def specPosFrom (ps : List (Nat × Doc)) (t : String) (i : Nat) : List Nat :=
  ps.flatMap fun p =>
    if p.1 = i then specPositions t (tokenize ((dGet p.2 "title").getD "")) else []

/-- The total number of postings entries held in a non-positional index. -/
def sumPostings (idx : List (String × List Nat)) : Nat :=
  (idx.map fun p => p.2.length).sum

/-! ## Lemmas about the non-positional index build -/

theorem npLookup_dictAppend (idx : List (String × List Nat)) (t : String) (i : Nat)
    (s : String) :
    npLookup (dictAppend idx t i) s =
      if s = t then npLookup idx s ++ [i] else npLookup idx s := by
  induction idx with
  | nil =>
    by_cases h : s = t
    · subst h; simp [dictAppend, npLookup]
    · have h2 : ¬ t = s := fun h3 => h h3.symm
      simp [dictAppend, npLookup, h, h2]
  | cons p rest ih =>
    obtain ⟨k, v⟩ := p
    simp only [dictAppend]
    by_cases hk : k = t
    · subst hk
      rw [if_pos rfl]
      by_cases hs : k = s
      · subst hs
        simp [npLookup]
      · have hst : ¬ s = k := fun h3 => hs h3.symm
        simp [npLookup, hs, hst]
    · rw [if_neg hk]
      by_cases hs : k = s
      · have hst : ¬ s = t := fun h2 => hk (hs.trans h2)
        rw [if_neg hst]
        simp [npLookup, hs]
      · simp only [npLookup, if_neg hs]
        exact ih

theorem npLookup_foldTokens (toks : List String) (idx : List (String × List Nat))
    (i : Nat) (s : String) :
    npLookup (toks.foldl (fun a tk => dictAppend a tk i) idx) s =
      npLookup idx s ++ (toks.filter (fun tk => tk = s)).map (fun _ => i) := by
  induction toks generalizing idx with
  | nil => simp
  | cons tk rest ih =>
    rw [List.foldl_cons, ih, npLookup_dictAppend, List.filter_cons]
    by_cases h : tk = s
    · rw [if_pos h.symm, if_pos (by simp [h])]
      simp
    · rw [if_neg (fun h2 : s = tk => h h2.symm), if_neg (by simp [h])]

theorem specPostingsFrom_nil (n : Nat) (s : String) : specPostingsFrom n [] s = [] := rfl

theorem specPostingsFrom_cons (n : Nat) (d : Doc) (rest : List Doc) (s : String) :
    specPostingsFrom n (d :: rest) s =
      ((tokenize ((dGet d "title").getD "")).filter (fun tk => tk = s)).map (fun _ => n) ++
        specPostingsFrom (n + 1) rest s := by
  simp [specPostingsFrom, List.enumFrom_cons]

theorem NPbuildAux_ok (docs : List Doc) :
    ∀ (n : Nat) (idx : List (String × List Nat)),
      (∀ d ∈ docs, (dGet d "title").isSome) →
      ∃ r, NPbuildAux idx (List.enumFrom n docs) = .ok r ∧
        ∀ s, npLookup r s = npLookup idx s ++ specPostingsFrom n docs s := by
  induction docs with
  | nil =>
    intro n idx _
    exact ⟨idx, rfl, fun s => by simp [specPostingsFrom_nil]⟩
  | cons d rest ih =>
    intro n idx h
    obtain ⟨v, hv⟩ := Option.isSome_iff_exists.mp (h d (List.mem_cons_self _ _))
    obtain ⟨r, hr, hchar⟩ :=
      ih (n + 1) ((tokenize v).foldl (fun a tk => dictAppend a tk n) idx)
        (fun d2 hd2 => h d2 (List.mem_cons_of_mem _ hd2))
    refine ⟨r, ?_, ?_⟩
    · rw [List.enumFrom_cons]
      simp only [NPbuildAux, hv]
      exact hr
    · intro s
      rw [hchar s, npLookup_foldTokens, specPostingsFrom_cons, hv]
      simp [List.append_assoc]

theorem NPbuildAux_missing (docs : List Doc) :
    ∀ (n : Nat) (idx : List (String × List Nat)) (d : Doc),
      d ∈ docs → dGet d "title" = none →
      NPbuildAux idx (List.enumFrom n docs) = .error .missingFieldError := by
  induction docs with
  | nil => intro n idx d hd _; cases hd
  | cons d0 rest ih =>
    intro n idx d hd hnone
    rw [List.enumFrom_cons]
    rcases List.mem_cons.mp hd with h0 | hmem
    · subst h0
      simp [NPbuildAux, hnone]
    · cases hv : dGet d0 "title" with
      | none => simp [NPbuildAux, hv]
      | some v =>
        simp only [NPbuildAux, hv]
        exact ih (n + 1) _ d hmem hnone

/-! ## Claims about the non-positional builder -/

/-- Claim C1: for every list of documents that all hold a title field,
build_index succeeds, and for every token the postings list equals the
document ids of the occurrences of that token in scan order: documents are
walked in source order with ids 0..N-1, and the id of a document is appended
once per occurrence of the token in its tokenized title. -/
theorem C1_nonpos_postings_per_occurrence (docs : List Doc)
    (h : ∀ d ∈ docs, (dGet d "title").isSome) :
    ∃ st, NonPositionalIndex.empty.build_index docs = .ok st ∧
      ∀ s, npLookup st.index s = specPostings docs s := by
  obtain ⟨r, hr, hc⟩ := NPbuildAux_ok docs 0 [] h
  refine ⟨⟨r, none⟩, ?_, fun s => ?_⟩
  · simp only [NonPositionalIndex.build_index, NonPositionalIndex.empty,
      List.enum_eq_enumFrom, hr]
  · simpa [npLookup, specPostings] using hc s

/-- Witness for C1 at the two-document scenario of the spec. -/
theorem C1_witness :
    (∀ d ∈ ([[("title", "Le chat noir"), ("url", "u1")],
             [("title", "Un chat blanc"), ("url", "u2")]] : List Doc),
        (dGet d "title").isSome) ∧
      ∃ st,
        NonPositionalIndex.empty.build_index
            [[("title", "Le chat noir"), ("url", "u1")],
             [("title", "Un chat blanc"), ("url", "u2")]] = .ok st ∧
          ∀ s, npLookup st.index s =
            specPostings
              [[("title", "Le chat noir"), ("url", "u1")],
               [("title", "Un chat blanc"), ("url", "u2")]] s :=
  ⟨by decide, C1_nonpos_postings_per_occurrence _ (by decide)⟩

/-- Claim C7: build_index signals MissingFieldError on a document list in
which some document lacks the title field, and on the empty document list it
returns the unchanged empty index, with no error. -/
theorem C7_missing_field_and_empty_corpus (docs : List Doc) (d : Doc)
    (hd : d ∈ docs) (hmiss : dGet d "title" = none) :
    NonPositionalIndex.empty.build_index docs = .error PyErr.missingFieldError ∧
      NonPositionalIndex.empty.build_index ([] : List Doc) =
        .ok NonPositionalIndex.empty := by
  constructor
  · simp only [NonPositionalIndex.build_index, NonPositionalIndex.empty,
      List.enum_eq_enumFrom]
    rw [NPbuildAux_missing docs 0 [] d hd hmiss]
  · rfl

/-- Witness for C7: a single document holding only a url field. -/
theorem C7_witness :
    ([("url", "u1")] : Doc) ∈ ([[("url", "u1")]] : List Doc) ∧
      dGet [("url", "u1")] "title" = none ∧
      (NonPositionalIndex.empty.build_index [[("url", "u1")]] =
          .error PyErr.missingFieldError ∧
        NonPositionalIndex.empty.build_index ([] : List Doc) =
          .ok NonPositionalIndex.empty) :=
  ⟨by decide, by decide,
    C7_missing_field_and_empty_corpus [[("url", "u1")]] [("url", "u1")]
      (by decide) (by decide)⟩

/-- Counterexample to claim C8 as stated: on the one-document list with title
chat, a second invocation of build_index on the same object does not
reproduce the result of the first invocation (the postings list of chat
doubles, because build_index never resets the index of the object). -/
theorem C8_counterexample :
    (NonPositionalIndex.empty.build_index [[("title", "chat")]]).bind
        (fun st => st.build_index [[("title", "chat")]]) ≠
      NonPositionalIndex.empty.build_index [[("title", "chat")]] := by
  decide

/-- Claim C8 (amended): build_index accumulates into the index it starts
from, so two runs from a fresh object produce the same mapping, but a second
invocation on the same object yields, for every token, the postings list of
the first invocation concatenated with itself. -/
theorem C8_amended_second_build_appends (docs : List Doc)
    (h : ∀ d ∈ docs, (dGet d "title").isSome)
    (st1 st2 : NonPositionalIndex)
    (h1 : NonPositionalIndex.empty.build_index docs = .ok st1)
    (h2 : st1.build_index docs = .ok st2) :
    ∀ s, npLookup st2.index s = npLookup st1.index s ++ npLookup st1.index s := by
  obtain ⟨r, hr, hc⟩ := NPbuildAux_ok docs 0 [] h
  simp only [NonPositionalIndex.build_index, NonPositionalIndex.empty,
    List.enum_eq_enumFrom, hr] at h1
  obtain ⟨hidx, -⟩ := NonPositionalIndex.mk.injEq .. ▸ (Except.ok.inj h1)
  obtain ⟨r2, hr2, hc2⟩ := NPbuildAux_ok docs 0 st1.index h
  simp only [NonPositionalIndex.build_index, List.enum_eq_enumFrom, hr2] at h2
  intro s
  have hst2 : st2.index = r2 := by
    cases h2
    rfl
  rw [hst2, hc2 s, ← hidx]
  have hb : npLookup r s = specPostingsFrom 0 docs s := by
    simpa [npLookup] using hc s
  rw [hb]

/-! ## Lemmas about the stemmed-index derivation -/

theorem npLookupOpt_dictSet (idx : List (String × List Nat)) (k : String)
    (v : List Nat) (s : String) :
    npLookupOpt (dictSet idx k v) s =
      if s = k then some v else npLookupOpt idx s := by
  induction idx with
  | nil =>
    by_cases h : s = k
    · subst h; simp [dictSet, npLookupOpt]
    · have h2 : ¬ k = s := fun h3 => h h3.symm
      simp [dictSet, npLookupOpt, h, h2]
  | cons p rest ih =>
    obtain ⟨k2, v2⟩ := p
    simp only [dictSet]
    by_cases hk : k2 = k
    · subst hk
      rw [if_pos rfl]
      by_cases hs : k2 = s
      · subst hs; simp [npLookupOpt]
      · have hst : ¬ s = k2 := fun h3 => hs h3.symm
        simp [npLookupOpt, hs, hst]
    · rw [if_neg hk]
      by_cases hs : k2 = s
      · have hst : ¬ s = k := fun h2 => hk (hs.trans h2)
        rw [if_neg hst]
        simp [npLookupOpt, hs]
      · simp only [npLookupOpt, if_neg hs]
        exact ih

theorem stemFold_lookup (stem : String → String) (l : List (String × List Nat)) :
    ∀ (acc : List (String × List Nat)) (s : String),
      npLookupOpt (l.foldl (fun a p => dictSet a (stem p.1) p.2) acc) s =
        match (l.filter (fun p => stem p.1 = s)).getLast? with
        | some q => some q.2
        | none => npLookupOpt acc s := by
  induction l with
  | nil => intro acc s; simp
  | cons p rest ih =>
    intro acc s
    rw [List.foldl_cons, ih, List.filter_cons]
    by_cases h : stem p.1 = s
    · rw [if_pos (by simp [h])]
      cases hl : rest.filter (fun q => stem q.1 = s) with
      | nil =>
        simp only [List.getLast?_nil, List.getLast?_singleton]
        rw [npLookupOpt_dictSet, if_pos h.symm]
      | cons q L =>
        rw [List.getLast?_cons_cons]
        cases hgl : (q :: L).getLast? with
        | none => exact absurd (List.getLast?_eq_none_iff.mp hgl) (List.cons_ne_nil q L)
        | some x => rfl
    · rw [if_neg (by simp [h]),
        npLookupOpt_dictSet, if_neg (fun h2 : s = stem p.1 => h h2.symm)]

/-- Claim C6: for every stemming function, stem_index assigns to the stemmed
key of every entry, in index order, the whole postings list of that entry, so
the entry a stemmed key finally holds is the postings list of the last entry
of the index whose token stems to it; when two distinct tokens stem alike the
later one overwrites the earlier one entirely, with no merging of lists. -/
theorem C6_stem_overwrites_last (stem : String → String)
    (idx : List (String × List Nat)) (s : String) :
    npLookupOpt (stem_index stem idx) s =
      ((idx.filter (fun p => stem p.1 = s)).getLast?).map Prod.snd := by
  rw [stem_index, stemFold_lookup]
  cases (idx.filter (fun p => stem p.1 = s)).getLast? with
  | none => rfl
  | some q => rfl

/-- Claim C5, evaluated at the failing input: the first normalization step of
the crawling tokenizer is an anchored regex, so on the input chat (a run of
plain letters, which the claim and the docstring of the method say must
survive as one lowercased token) the whole text is deleted and the token
sequence comes back empty. -/
theorem C5_crawl_tokenize_deletes_chat :
    crawlTokenize "chat" = [] ∧ crawlTokenize "chat" ≠ ["chat"] := by
  constructor
  · rfl
  · decide

/-! ## Lemmas about the statistics aggregator -/

/-- Spec side: the total number of title tokens over the corpus. -/
def totalTitleTokens : List Doc → Nat
  | [] => 0
  | d :: rest => (tokenize ((dGet d "title").getD "")).length + totalTitleTokens rest

/-- Spec side: the token count one document contributes to the per-field
counter of field g (its fields named g, url excluded). -/
def docFieldCount : Doc → String → Nat
  | [], _ => 0
  | p :: rest, g =>
    (if p.1 = g ∧ ¬ p.1 = "url" then (tokenize p.2).length else 0) + docFieldCount rest g

/-- Spec side: the per-field counter of field g over the whole corpus. -/
def fieldCountTotal : List Doc → String → Nat
  | [], _ => 0
  | d :: rest, g => docFieldCount d g + fieldCountTotal rest g

theorem tpfLookup_tpfAdd (l : List (String × Nat)) (f : String) (n : Nat) (g : String) :
    tpfLookup (tpfAdd l f n) g = tpfLookup l g + if g = f then n else 0 := by
  induction l with
  | nil =>
    by_cases h : g = f
    · subst h; simp [tpfAdd, tpfLookup]
    · have h2 : ¬ f = g := fun h3 => h h3.symm
      simp [tpfAdd, tpfLookup, h, h2]
  | cons p rest ih =>
    obtain ⟨k, v⟩ := p
    simp only [tpfAdd]
    by_cases hk : k = f
    · subst hk
      rw [if_pos rfl]
      by_cases hs : k = g
      · subst hs; simp [tpfLookup]
      · have hst : ¬ g = k := fun h3 => hs h3.symm
        simp [tpfLookup, hs, hst]
    · rw [if_neg hk]
      by_cases hs : k = g
      · have hst : ¬ g = f := fun h2 => hk (hs.trans h2)
        rw [if_neg hst]
        simp [tpfLookup, hs]
      · simp only [tpfLookup, if_neg hs]
        exact ih

theorem tpfLookup_fieldLoop (d : Doc) :
    ∀ (tpf : List (String × Nat)) (g : String),
      tpfLookup (fieldLoop tpf d) g = tpfLookup tpf g + docFieldCount d g := by
  induction d with
  | nil => intro tpf g; simp [fieldLoop, docFieldCount]
  | cons p rest ih =>
    intro tpf g
    have hstep : fieldLoop tpf (p :: rest) =
        fieldLoop (if p.1 ≠ "url" then tpfAdd tpf p.1 (tokenize p.2).length else tpf) rest := by
      simp [fieldLoop]
    rw [hstep, ih, docFieldCount]
    by_cases hu : p.1 = "url"
    · simp [hu]
    · rw [if_pos hu, tpfLookup_tpfAdd]
      by_cases hg : p.1 = g
      · have hgu : ¬ g = "url" := fun h3 => hu (hg.trans h3)
        simp [hg, hu, hgu]
        omega
      · have hg2 : ¬ g = p.1 := fun h3 => hg h3.symm
        simp [hg, hg2, hu]

theorem docFieldCount_absent (d : Doc) (g : String) :
    g ∉ d.map Prod.fst → docFieldCount d g = 0 := by
  induction d with
  | nil => intro _; rfl
  | cons p rest ih =>
    intro h
    simp only [List.map_cons, List.mem_cons] at h
    push_neg at h
    have hp : ¬ p.1 = g := fun h3 => h.1 h3.symm
    simp [docFieldCount, hp, ih h.2]

theorem docFieldCount_title (d : Doc) :
    ∀ (v : String), (d.map Prod.fst).Nodup → dGet d "title" = some v →
      docFieldCount d "title" = (tokenize v).length := by
  induction d with
  | nil => intro v _ h; cases h
  | cons p rest ih =>
    intro v hnd hget
    obtain ⟨k, w⟩ := p
    rw [List.map_cons, List.nodup_cons] at hnd
    by_cases hk : k = "title"
    · subst hk
      have hv : w = v := by simpa [dGet] using hget
      have hzero : docFieldCount rest "title" = 0 := docFieldCount_absent rest _ hnd.1
      subst hv
      simp [docFieldCount, hzero]
    · have hget2 : dGet rest "title" = some v := by simpa [dGet, hk] using hget
      simp [docFieldCount, hk, ih v hnd.2 hget2]

theorem fieldCountTotal_title (docs : List Doc)
    (h : ∀ d ∈ docs, (dGet d "title").isSome)
    (hnd : ∀ d ∈ docs, (d.map Prod.fst).Nodup) :
    fieldCountTotal docs "title" = totalTitleTokens docs := by
  induction docs with
  | nil => rfl
  | cons d rest ih =>
    obtain ⟨v, hv⟩ := Option.isSome_iff_exists.mp (h d (List.mem_cons_self _ _))
    rw [fieldCountTotal, totalTitleTokens, hv, Option.getD_some,
      docFieldCount_title d v (hnd d (List.mem_cons_self _ _)) hv,
      ih (fun d2 hd2 => h d2 (List.mem_cons_of_mem _ hd2))
        (fun d2 hd2 => hnd d2 (List.mem_cons_of_mem _ hd2))]

theorem calcLoop_ok (docs : List Doc) :
    ∀ (total : Nat) (tpf : List (String × Nat)),
      (∀ d ∈ docs, (dGet d "title").isSome) →
      ∃ tpf2, calcLoop total tpf docs = .ok (total + totalTitleTokens docs, tpf2) ∧
        ∀ g, tpfLookup tpf2 g = tpfLookup tpf g + fieldCountTotal docs g := by
  induction docs with
  | nil =>
    intro total tpf _
    exact ⟨tpf, by simp [calcLoop, totalTitleTokens],
      fun g => by simp [fieldCountTotal]⟩
  | cons d rest ih =>
    intro total tpf h
    obtain ⟨v, hv⟩ := Option.isSome_iff_exists.mp (h d (List.mem_cons_self _ _))
    obtain ⟨tpf2, hc, hg⟩ :=
      ih (total + (tokenize v).length) (fieldLoop tpf d)
        (fun d2 hd2 => h d2 (List.mem_cons_of_mem _ hd2))
    refine ⟨tpf2, ?_, fun g => ?_⟩
    · simp only [calcLoop, hv, hc, totalTitleTokens, Option.getD_some]
      congr 2
      omega
    · rw [hg g, tpfLookup_fieldLoop, fieldCountTotal]
      omega

theorem npCalc_ok_char (st : NonPositionalIndex) (docs : List Doc)
    (hne : docs ≠ []) (h : ∀ d ∈ docs, (dGet d "title").isSome) :
    ∃ tpf2, st.calculate_statistics docs =
        .ok ⟨st.index, some ⟨docs.length, totalTitleTokens docs, tpf2,
          (totalTitleTokens docs : ℚ) / (docs.length : ℚ)⟩⟩ ∧
      ∀ g, tpfLookup tpf2 g = fieldCountTotal docs g := by
  obtain ⟨tpf2, hc, hg⟩ := calcLoop_ok docs 0 [] h
  have hlen : (docs.length : ℚ) ≠ 0 := by
    simpa using fun h0 => hne (List.length_eq_zero.mp h0)
  refine ⟨tpf2, ?_, fun g => by simpa [tpfLookup] using hg g⟩
  rw [NonPositionalIndex.calculate_statistics, hc]
  simp only [Nat.zero_add, pyDiv, if_neg hlen]

theorem npCalc_index_eq (st st2 : NonPositionalIndex) (docs : List Doc)
    (h : st.calculate_statistics docs = .ok st2) : st2.index = st.index := by
  rw [NonPositionalIndex.calculate_statistics] at h
  cases hc : calcLoop 0 [] docs with
  | error e => rw [hc] at h; cases h
  | ok p =>
    obtain ⟨total, tpf⟩ := p
    rw [hc] at h
    cases hd : pyDiv (total : ℚ) (docs.length : ℚ) with
    | error e => simp only [hd] at h; cases h
    | ok avg =>
      simp only [hd] at h
      cases h
      rfl

theorem posCalc_index_eq (st st2 : PositionalIndex) (docs : List Doc)
    (h : st.calculate_statistics docs = .ok st2) : st2.index = st.index := by
  rw [PositionalIndex.calculate_statistics] at h
  cases hc : calcLoop 0 [] docs with
  | error e => rw [hc] at h; cases h
  | ok p =>
    obtain ⟨total, tpf⟩ := p
    rw [hc] at h
    cases hd : pyDiv (total : ℚ) (docs.length : ℚ) with
    | error e => simp only [hd] at h; cases h
    | ok avg =>
      simp only [hd] at h
      cases h
      rfl

/-! ## Claims about the statistics aggregator -/

/-- Claim C3: on a non-empty list of documents that all hold a title field,
calculate_statistics succeeds and, with the division carried as an exact
rational, the stored average times the stored document count equals the
stored total token count. -/
theorem C3_avg_times_num_eq_total (st0 : NonPositionalIndex) (docs : List Doc)
    (hne : docs ≠ []) (h : ∀ d ∈ docs, (dGet d "title").isSome) :
    ∃ st s, st0.calculate_statistics docs = .ok st ∧ st.statistics = some s ∧
      s.num_documents = docs.length ∧ s.total_tokens = totalTitleTokens docs ∧
      s.avg_tokens_per_doc * (s.num_documents : ℚ) = (s.total_tokens : ℚ) := by
  obtain ⟨tpf2, hok, -⟩ := npCalc_ok_char st0 docs hne h
  have hlen : (docs.length : ℚ) ≠ 0 := by
    simpa using fun h0 => hne (List.length_eq_zero.mp h0)
  exact ⟨_, _, hok, rfl, rfl, rfl, div_mul_cancel₀ _ hlen⟩

/-- Witness for C3 at the two-document scenario of the spec: six title
tokens over two documents give the average three, and three times two is
six. -/
theorem C3_witness :
    (([[("title", "Le chat noir"), ("url", "u1")],
       [("title", "Un chat blanc"), ("url", "u2")]] : List Doc) ≠ [] ∧
      ∀ d ∈ ([[("title", "Le chat noir"), ("url", "u1")],
              [("title", "Un chat blanc"), ("url", "u2")]] : List Doc),
        (dGet d "title").isSome) ∧
      ∃ st s,
        NonPositionalIndex.empty.calculate_statistics
            [[("title", "Le chat noir"), ("url", "u1")],
             [("title", "Un chat blanc"), ("url", "u2")]] = .ok st ∧
          st.statistics = some s ∧
          s.num_documents =
            ([[("title", "Le chat noir"), ("url", "u1")],
              [("title", "Un chat blanc"), ("url", "u2")]] : List Doc).length ∧
          s.total_tokens =
            totalTitleTokens
              [[("title", "Le chat noir"), ("url", "u1")],
               [("title", "Un chat blanc"), ("url", "u2")]] ∧
          s.avg_tokens_per_doc * (s.num_documents : ℚ) = (s.total_tokens : ℚ) :=
  ⟨⟨by decide, by decide⟩,
    C3_avg_times_num_eq_total NonPositionalIndex.empty _ (by decide) (by decide)⟩

/-- Claim C4, evaluated at the failing input: on the empty document list
calculate_statistics reaches the division of the total token count by the
document count with an unguarded zero divisor, and the resulting failure is
exactly the ZeroDivisionError of that division; no explicit guard and no
documented error of its own exist in the code. -/
theorem C4_empty_corpus_unguarded_division (st0 : NonPositionalIndex) :
    st0.calculate_statistics ([] : List Doc) = .error PyErr.zeroDivisionError := by
  rfl

/-- Claim C10: calculate_statistics never modifies the token-to-postings
mapping held in the index field, in the non-positional and in the positional
builder alike. -/
theorem C10_calc_stats_preserves_index (docs : List Doc)
    (np np2 : NonPositionalIndex) (pp pp2 : PositionalIndex)
    (h1 : np.calculate_statistics docs = .ok np2)
    (h2 : pp.calculate_statistics docs = .ok pp2) :
    np2.index = np.index ∧ pp2.index = pp.index :=
  ⟨npCalc_index_eq np np2 docs h1, posCalc_index_eq pp pp2 docs h2⟩

/-- Witness for C10 at a one-document list, on objects whose index fields are
already populated. -/
theorem C10_witness :
    NonPositionalIndex.calculate_statistics ⟨[("chat", [0])], none⟩
        [[("title", "chat")]] =
      .ok ⟨[("chat", [0])],
        some ⟨1, 1, [("title", 1)], ((1 : Nat) : ℚ) / ((1 : Nat) : ℚ)⟩⟩ ∧
    PositionalIndex.calculate_statistics ⟨[("chat", [(0, [0])])], none⟩
        [[("title", "chat")]] =
      .ok ⟨[("chat", [(0, [0])])],
        some ⟨1, 1, [("title", 1)], ((1 : Nat) : ℚ) / ((1 : Nat) : ℚ)⟩⟩ ∧
    (NonPositionalIndex.index ⟨[("chat", [0])],
          some ⟨1, 1, [("title", 1)], ((1 : Nat) : ℚ) / ((1 : Nat) : ℚ)⟩⟩ =
        NonPositionalIndex.index ⟨[("chat", [0])], none⟩ ∧
      PositionalIndex.index ⟨[("chat", [(0, [0])])],
          some ⟨1, 1, [("title", 1)], ((1 : Nat) : ℚ) / ((1 : Nat) : ℚ)⟩⟩ =
        PositionalIndex.index ⟨[("chat", [(0, [0])])], none⟩) :=
  ⟨by rfl, by rfl,
    C10_calc_stats_preserves_index [[("title", "chat")]]
      ⟨[("chat", [0])], none⟩ _ ⟨[("chat", [(0, [0])])], none⟩ _
      (by rfl) (by rfl)⟩

/-- Witness for the amended C8 at the one-document list with title chat: the
first run yields the postings list with one zero, the second run on the same
object doubles it. -/
theorem C8_witness :
    (∀ d ∈ ([[("title", "chat")]] : List Doc), (dGet d "title").isSome) ∧
      NonPositionalIndex.empty.build_index [[("title", "chat")]] =
        .ok ⟨[("chat", [0])], none⟩ ∧
      NonPositionalIndex.build_index ⟨[("chat", [0])], none⟩ [[("title", "chat")]] =
        .ok ⟨[("chat", [0, 0])], none⟩ ∧
      ∀ s, npLookup (NonPositionalIndex.index ⟨[("chat", [0, 0])], none⟩) s =
        npLookup (NonPositionalIndex.index ⟨[("chat", [0])], none⟩) s ++
          npLookup (NonPositionalIndex.index ⟨[("chat", [0])], none⟩) s :=
  ⟨by decide, by decide, by decide,
    C8_amended_second_build_appends [[("title", "chat")]] (by decide)
      ⟨[("chat", [0])], none⟩ ⟨[("chat", [0, 0])], none⟩ (by decide) (by decide)⟩

/-! ## Lemmas about the positional index build -/

theorem innerLookup_innerAppend (inner : List (Nat × List Nat)) (i pos : Nat) (j : Nat) :
    innerLookup (innerAppend inner i pos) j =
      innerLookup inner j ++ if j = i then [pos] else [] := by
  induction inner with
  | nil =>
    by_cases h : j = i
    · subst h; simp [innerAppend, innerLookup]
    · have h2 : ¬ i = j := fun h3 => h h3.symm
      simp [innerAppend, innerLookup, h, h2]
  | cons p rest ih =>
    obtain ⟨k, v⟩ := p
    simp only [innerAppend]
    by_cases hk : k = i
    · subst hk
      rw [if_pos rfl]
      by_cases hs : k = j
      · subst hs; simp [innerLookup]
      · have hst : ¬ j = k := fun h3 => hs h3.symm
        simp [innerLookup, hs, hst]
    · rw [if_neg hk]
      by_cases hs : k = j
      · have hst : ¬ j = i := fun h2 => hk (hs.trans h2)
        rw [if_neg hst]
        simp [innerLookup, hs]
      · simp only [innerLookup, if_neg hs]
        exact ih

theorem posLookup_posDictAppend (idx : List (String × List (Nat × List Nat)))
    (t : String) (i pos : Nat) (s : String) (j : Nat) :
    posLookup (posDictAppend idx t i pos) s j =
      posLookup idx s j ++ if s = t ∧ j = i then [pos] else [] := by
  induction idx with
  | nil =>
    by_cases hs : s = t
    · subst hs
      by_cases hj : j = i
      · subst hj
        simp [posDictAppend, posLookup, innerLookup]
      · have h2 : ¬ i = j := fun h3 => hj h3.symm
        simp [posDictAppend, posLookup, innerLookup, hj, h2]
    · have h2 : ¬ t = s := fun h3 => hs h3.symm
      simp [posDictAppend, posLookup, h2, hs]
  | cons p rest ih =>
    obtain ⟨k, v⟩ := p
    simp only [posDictAppend]
    by_cases hk : k = t
    · subst hk
      rw [if_pos rfl]
      by_cases hs : k = s
      · subst hs
        simp only [posLookup, if_pos rfl]
        rw [innerLookup_innerAppend]
        by_cases hj : j = i
        · simp [hj]
        · simp [hj]
      · have hst : ¬ s = k := fun h3 => hs h3.symm
        simp [posLookup, hs, hst]
    · rw [if_neg hk]
      by_cases hs : k = s
      · have hst : ¬ (s = t ∧ j = i) := fun h2 => hk (hs.trans h2.1)
        rw [if_neg hst]
        simp [posLookup, hs]
      · simp only [posLookup, if_neg hs]
        exact ih

theorem posLookup_foldPositions (ps : List (Nat × String)) :
    ∀ (idx : List (String × List (Nat × List Nat))) (i : Nat) (s : String) (j : Nat),
      posLookup (ps.foldl (fun a p => posDictAppend a p.2 i p.1) idx) s j =
        posLookup idx s j ++
          if j = i then (ps.filter (fun p => p.2 = s)).map Prod.fst else [] := by
  induction ps with
  | nil => intro idx i s j; simp
  | cons p rest ih =>
    intro idx i s j
    rw [List.foldl_cons, ih, posLookup_posDictAppend, List.filter_cons]
    by_cases hj : j = i
    · by_cases hs : p.2 = s
      · rw [if_pos (⟨hs.symm, hj⟩ : s = p.2 ∧ j = i), if_pos hj, if_pos hj]
        simp [hs]
      · rw [if_neg (fun h2 : s = p.2 ∧ j = i => hs h2.1.symm), if_pos hj, if_pos hj]
        simp [hs]
    · by_cases hs : p.2 = s
      · rw [if_neg (fun h2 : s = p.2 ∧ j = i => hj h2.2), if_neg hj, if_neg hj]
        simp
      · rw [if_neg (fun h2 : s = p.2 ∧ j = i => hs h2.1.symm), if_neg hj, if_neg hj]
        simp

theorem specPosFrom_nil (t : String) (i : Nat) : specPosFrom [] t i = [] := rfl

theorem specPosFrom_cons (p : Nat × Doc) (ps : List (Nat × Doc)) (t : String) (i : Nat) :
    specPosFrom (p :: ps) t i =
      (if p.1 = i then specPositions t (tokenize ((dGet p.2 "title").getD "")) else []) ++
        specPosFrom ps t i := by
  simp [specPosFrom]

theorem PosBuildAux_ok (docs : List Doc) :
    ∀ (n : Nat) (idx : List (String × List (Nat × List Nat))),
      (∀ d ∈ docs, (dGet d "title").isSome) →
      ∃ r, PosBuildAux idx (List.enumFrom n docs) = .ok r ∧
        ∀ s j, posLookup r s j =
          posLookup idx s j ++ specPosFrom (List.enumFrom n docs) s j := by
  induction docs with
  | nil =>
    intro n idx _
    exact ⟨idx, rfl, fun s j => by simp [specPosFrom]⟩
  | cons d rest ih =>
    intro n idx h
    obtain ⟨v, hv⟩ := Option.isSome_iff_exists.mp (h d (List.mem_cons_self _ _))
    obtain ⟨r, hr, hchar⟩ :=
      ih (n + 1) ((tokenize v).enum.foldl (fun a p => posDictAppend a p.2 n p.1) idx)
        (fun d2 hd2 => h d2 (List.mem_cons_of_mem _ hd2))
    refine ⟨r, ?_, fun s j => ?_⟩
    · rw [List.enumFrom_cons]
      simp only [PosBuildAux, hv]
      exact hr
    · rw [List.enumFrom_cons, specPosFrom_cons, hchar s j, posLookup_foldPositions, hv]
      simp only [Option.getD_some]
      by_cases hj : j = n
      · rw [if_pos hj, if_pos hj.symm]
        simp [specPositions, List.append_assoc]
      · rw [if_neg hj, if_neg (fun h3 : n = j => hj h3.symm)]
        simp

theorem specPosFrom_out_of_range (docs : List Doc) :
    ∀ (n j : Nat) (s : String), j < n →
      specPosFrom (List.enumFrom n docs) s j = [] := by
  induction docs with
  | nil => intro n j s _; rfl
  | cons d rest ih =>
    intro n j s hj
    rw [List.enumFrom_cons, specPosFrom_cons,
      if_neg (fun h3 : n = j => by omega), ih (n + 1) j s (by omega)]
    rfl

theorem specPosFrom_at_doc (docs : List Doc) :
    ∀ (n j : Nat) (d : Doc) (s : String), docs[j]? = some d →
      specPosFrom (List.enumFrom n docs) s (n + j) =
        specPositions s (tokenize ((dGet d "title").getD "")) := by
  induction docs with
  | nil => intro n j d s h; cases h
  | cons d0 rest ih =>
    intro n j d s h
    rw [List.enumFrom_cons, specPosFrom_cons]
    cases j with
    | zero =>
      rw [List.getElem?_cons_zero] at h
      cases h
      rw [if_pos (by omega : n = n + 0),
        specPosFrom_out_of_range rest (n + 1) (n + 0) s (by omega)]
      simp
    | succ j2 =>
      rw [List.getElem?_cons_succ] at h
      rw [if_neg (by omega : ¬ n = n + (j2 + 1))]
      have h3 : n + (j2 + 1) = (n + 1) + j2 := by omega
      rw [h3, ih (n + 1) j2 d s h]
      simp

theorem enumFrom_pairwise_fst {α : Type} (l : List α) :
    ∀ n : Nat, (List.enumFrom n l).Pairwise (fun p q => p.1 < q.1) := by
  induction l with
  | nil => intro n; simp
  | cons a rest ih =>
    intro n
    rw [List.enumFrom_cons]
    refine List.Pairwise.cons ?_ (ih (n + 1))
    rintro ⟨i, x⟩ hq
    have := (List.mk_mem_enumFrom_iff_le_and_getElem?_sub.mp hq).1
    simpa using by omega

theorem specPositions_sorted (s : String) (toks : List String) :
    List.Pairwise (· < ·) (specPositions s toks) := by
  have h2 : toks.enum.Pairwise (fun p q => p.1 < q.1) := by
    rw [List.enum_eq_enumFrom]
    exact enumFrom_pairwise_fst toks 0
  exact List.pairwise_map.mpr (h2.filter (fun p => decide (p.2 = s)))

theorem specPositions_mem (s : String) (toks : List String) (p : Nat)
    (hp : p ∈ specPositions s toks) : toks[p]? = some s := by
  rw [specPositions] at hp
  obtain ⟨⟨i, x⟩, hmem, hfst⟩ := List.mem_map.mp hp
  obtain ⟨hmem2, hx⟩ := List.mem_filter.mp hmem
  have hxs : x = s := of_decide_eq_true hx
  rw [List.enum_eq_enumFrom] at hmem2
  have hget := (List.mk_mem_enumFrom_iff_le_and_getElem?_sub.mp hmem2).2
  have hip : i = p := hfst
  subst hip
  subst hxs
  simpa using hget

/-- Claim C2: for every list of documents that all hold a title field,
PositionalIndex.build_index succeeds and, for every token and every document
of the list, the stored position list is exactly the zero-based occurrence
positions of the token in the tokenized title of that document (so positions
restart at 0 for each document), it is strictly increasing, and indexing the
tokenized title at each listed position retrieves exactly that token. -/
theorem C2_positional_positions (docs : List Doc)
    (h : ∀ d ∈ docs, (dGet d "title").isSome) (j : Nat) (d : Doc) (v : String)
    (hd : docs[j]? = some d) (hv : dGet d "title" = some v) :
    ∃ st, PositionalIndex.empty.build_index docs = .ok st ∧
      ∀ s, posLookup st.index s j = specPositions s (tokenize v) ∧
        List.Pairwise (· < ·) (posLookup st.index s j) ∧
        ∀ p ∈ posLookup st.index s j, (tokenize v)[p]? = some s := by
  obtain ⟨r, hr, hc⟩ := PosBuildAux_ok docs 0 [] h
  refine ⟨⟨r, none⟩, ?_, fun s => ?_⟩
  · simp only [PositionalIndex.build_index, PositionalIndex.empty,
      List.enum_eq_enumFrom, hr]
  · have hchar : posLookup r s j = specPositions s (tokenize v) := by
      have h1 : specPosFrom (List.enumFrom 0 docs) s j =
          specPositions s (tokenize ((dGet d "title").getD "")) := by
        simpa using specPosFrom_at_doc docs 0 j d s hd
      have h0 := hc s j
      rw [h1, hv] at h0
      simpa [posLookup] using h0
    refine ⟨hchar, ?_, fun p hp => ?_⟩
    · rw [hchar]
      exact specPositions_sorted s (tokenize v)
    · exact specPositions_mem s (tokenize v) p (hchar ▸ hp)

/-- Witness for C2 at a one-document list whose title holds the token chat
twice, at positions 0 and 1. -/
theorem C2_witness :
    (∀ d ∈ ([[("title", "chat chat")]] : List Doc), (dGet d "title").isSome) ∧
      ([[("title", "chat chat")]] : List Doc)[0]? = some [("title", "chat chat")] ∧
      dGet [("title", "chat chat")] "title" = some "chat chat" ∧
      ∃ st, PositionalIndex.empty.build_index [[("title", "chat chat")]] = .ok st ∧
        ∀ s, posLookup st.index s 0 = specPositions s (tokenize "chat chat") ∧
          List.Pairwise (· < ·) (posLookup st.index s 0) ∧
          ∀ p ∈ posLookup st.index s 0, (tokenize "chat chat")[p]? = some s :=
  ⟨by decide, by decide, by decide,
    C2_positional_positions [[("title", "chat chat")]] (by decide) 0
      [("title", "chat chat")] "chat chat" (by decide) (by decide)⟩

/-! ## Lemmas connecting the index to the statistics -/

theorem sumPostings_dictAppend (idx : List (String × List Nat)) (t : String) (i : Nat) :
    sumPostings (dictAppend idx t i) = sumPostings idx + 1 := by
  induction idx with
  | nil => rfl
  | cons p rest ih =>
    obtain ⟨k, v⟩ := p
    by_cases hk : k = t
    · simp [dictAppend, hk, sumPostings]
      omega
    · simp only [dictAppend, if_neg hk, sumPostings, List.map_cons, List.sum_cons]
      have := ih
      simp only [sumPostings] at this
      omega

theorem sumPostings_foldTokens (toks : List String) :
    ∀ (idx : List (String × List Nat)) (i : Nat),
      sumPostings (toks.foldl (fun a tk => dictAppend a tk i) idx) =
        sumPostings idx + toks.length := by
  induction toks with
  | nil => intro idx i; simp
  | cons tk rest ih =>
    intro idx i
    rw [List.foldl_cons, ih, sumPostings_dictAppend, List.length_cons]
    omega

theorem NPbuildAux_sum (docs : List Doc) :
    ∀ (n : Nat) (idx r), NPbuildAux idx (List.enumFrom n docs) = .ok r →
      sumPostings r = sumPostings idx + totalTitleTokens docs := by
  induction docs with
  | nil =>
    intro n idx r h
    simp only [List.enumFrom_nil, NPbuildAux] at h
    cases h
    simp [totalTitleTokens]
  | cons d rest ih =>
    intro n idx r h
    rw [List.enumFrom_cons] at h
    cases hv : dGet d "title" with
    | none =>
      simp only [NPbuildAux, hv] at h
      cases h
    | some v =>
      simp only [NPbuildAux, hv] at h
      rw [ih (n + 1) _ r h, sumPostings_foldTokens, totalTitleTokens, hv,
        Option.getD_some]
      omega

theorem npBuild_index_char (st st2 : NonPositionalIndex) (docs : List Doc)
    (h : st.build_index docs = .ok st2) :
    NPbuildAux st.index (List.enumFrom 0 docs) = .ok st2.index := by
  rw [NonPositionalIndex.build_index, List.enum_eq_enumFrom] at h
  cases hc : NPbuildAux st.index (List.enumFrom 0 docs) with
  | error e => rw [hc] at h; cases h
  | ok idx => rw [hc] at h; cases h; rfl

/-- Claim C9: whenever the non-positional build and the statistics
computation both succeed on the same document list (all documents holding a
title field, and, as for every Python dict, no document holding a field name
twice), the index and the statistics agree: the postings-list lengths summed
over all tokens equal the stored total token count, and the per-field
counter of the title field equals it as well. -/
theorem C9_index_statistics_consistency (docs : List Doc)
    (h : ∀ d ∈ docs, (dGet d "title").isSome)
    (hnd : ∀ d ∈ docs, (d.map Prod.fst).Nodup)
    (st st2 : NonPositionalIndex) (s : Statistics)
    (hb : NonPositionalIndex.empty.build_index docs = .ok st)
    (hcalc : st.calculate_statistics docs = .ok st2)
    (hs : st2.statistics = some s) :
    sumPostings st2.index = s.total_tokens ∧
      tpfLookup s.tokens_per_field "title" = s.total_tokens := by
  have hne : docs ≠ [] := by
    intro h0
    subst h0
    rw [show st.calculate_statistics ([] : List Doc) =
        .error PyErr.zeroDivisionError from rfl] at hcalc
    cases hcalc
  obtain ⟨tpf2, hok, hg⟩ := npCalc_ok_char st docs hne h
  rw [hok] at hcalc
  cases hcalc
  cases hs
  have hsum : sumPostings st.index = totalTitleTokens docs := by
    have hchar := npBuild_index_char NonPositionalIndex.empty st docs hb
    have := NPbuildAux_sum docs 0 NonPositionalIndex.empty.index st.index hchar
    simpa [NonPositionalIndex.empty, sumPostings] using this
  exact ⟨hsum, by rw [hg "title", fieldCountTotal_title docs h hnd]⟩

/-- Witness for C9 at a one-document list: one postings entry, total token
count one, per-field title counter one. -/
theorem C9_witness :
    (∀ d ∈ ([[("title", "chat")]] : List Doc), (dGet d "title").isSome) ∧
      (∀ d ∈ ([[("title", "chat")]] : List Doc), (d.map Prod.fst).Nodup) ∧
      NonPositionalIndex.empty.build_index [[("title", "chat")]] =
        .ok ⟨[("chat", [0])], none⟩ ∧
      NonPositionalIndex.calculate_statistics ⟨[("chat", [0])], none⟩
          [[("title", "chat")]] =
        .ok ⟨[("chat", [0])],
          some ⟨1, 1, [("title", 1)], ((1 : Nat) : ℚ) / ((1 : Nat) : ℚ)⟩⟩ ∧
      (sumPostings (NonPositionalIndex.index ⟨[("chat", [0])],
          some ⟨1, 1, [("title", 1)], ((1 : Nat) : ℚ) / ((1 : Nat) : ℚ)⟩⟩) =
          Statistics.total_tokens
            ⟨1, 1, [("title", 1)], ((1 : Nat) : ℚ) / ((1 : Nat) : ℚ)⟩ ∧
        tpfLookup (Statistics.tokens_per_field
            ⟨1, 1, [("title", 1)], ((1 : Nat) : ℚ) / ((1 : Nat) : ℚ)⟩) "title" =
          Statistics.total_tokens
            ⟨1, 1, [("title", 1)], ((1 : Nat) : ℚ) / ((1 : Nat) : ℚ)⟩) :=
  ⟨by decide, by decide, by decide, by rfl,
    C9_index_statistics_consistency [[("title", "chat")]] (by decide) (by decide)
      ⟨[("chat", [0])], none⟩
      ⟨[("chat", [0])], some ⟨1, 1, [("title", 1)], ((1 : Nat) : ℚ) / ((1 : Nat) : ℚ)⟩⟩
      ⟨1, 1, [("title", 1)], ((1 : Nat) : ℚ) / ((1 : Nat) : ℚ)⟩
      (by decide) (by rfl) (by rfl)⟩
